import Mathlib

/-!
Shallow embedding of the WebSocket signaling relay in `video_server.py`
(class `ConnectionManager` and the function `handle_message`).

The registry `active_connections` is a Python `dict` (insertion-ordered,
in-place update on an existing key), modelled as an association list with
the corresponding update discipline.  A channel (`WebSocket`) is modelled
by an abstract handle plus a `fails` flag saying whether `send_json` on it
raises; a successful send appends an observable `(handle, message)` event
to a trace, a failing send appends nothing.  The `asyncio.Lock` serializes
every manager operation, so each completing operation is modelled as an
atomic state transformer.  One path does not complete: `send_to`'s failure
branch awaits `disconnect` while `send_to` itself still holds the
non-reentrant lock, and `disconnect` begins by re-acquiring that same
lock, so the coroutine blocks forever before performing any mutation.
`send_to` therefore returns `Option (Bool × ManagerState)`, with `none`
for that deadlocked path (the observable state at the moment of blocking
is the unchanged input state, and it can never change again since the
lock is held forever).  `handle_message`'s Boolean result records whether
the handler ran to completion: `false` exactly on a routed send to a
registered target whose channel raises.

`broadcast` and `disconnect` are mutually recursive in the source (a failed
delivery during a broadcast triggers a disconnect, whose `user_left`
broadcast can fail again).  The embedding runs this recursion as an
explicit depth-first work list (`cascade`) with a fuel bound; the Boolean
component of each result records whether the fuel sufficed.  The real
recursion always terminates because the registry only shrinks, so every
actual run corresponds to a fuelled run whose flag is `true`.
-/

namespace VideoServer

/-- Client identifiers are opaque strings (the `{client_id}` path segment). -/
abbrev ClientId := String

/-- Abstract identity of a live WebSocket object. -/
abbrev Handle := Nat

/-- A WebSocket channel: an abstract handle plus whether `send_json` raises. -/
structure Channel where
  handle : Handle
  fails : Bool
deriving DecidableEq, Repr

/-- The JSON messages the relay ever sends, one constructor per `type`. -/
inductive Msg where
  | connected (client_id : ClientId) (message : String)
  | user_joined (client_id : ClientId) (users_online : Nat)
  | user_left (client_id : ClientId) (users_online : Nat)
  | users_list (users : List ClientId) (users_online : Nat)
  | offer (offer : Option String) (sender : ClientId)
  | answer (answer : Option String) (sender : ClientId)
  | ice_candidate (candidate : Option String) (sender : ClientId)
deriving DecidableEq, Repr

/-- State of the `ConnectionManager`: the `active_connections` dict, the
trace of successfully delivered messages, and the handles that were
`close()`d. -/
structure ManagerState where
  active_connections : List (ClientId × Channel)
  sent : List (Handle × Msg)
  closed : List Handle
deriving DecidableEq, Repr

/-- The manager as constructed in `ConnectionManager.__init__`. -/
def emptyState : ManagerState := ⟨[], [], []⟩

/-- `dict.keys()` of the registry. -/
def keys (l : List (ClientId × Channel)) : List ClientId := l.map Prod.fst

/-- Python `key in dict`. -/
def hasKey : List (ClientId × Channel) → ClientId → Bool
  | [], _ => false
  | (k', _) :: rest, k => if k' = k then true else hasKey rest k

/-- Python `dict[key]` lookup (as an `Option`). -/
def dictGet : List (ClientId × Channel) → ClientId → Option Channel
  | [], _ => none
  | (k', v') :: rest, k => if k' = k then some v' else dictGet rest k

/-- Python `dict[key] = value`: replaces in place, else appends. -/
def dictSet : List (ClientId × Channel) → ClientId → Channel → List (ClientId × Channel)
  | [], k, v => [(k, v)]
  | (k', v') :: rest, k, v =>
    if k' = k then (k, v) :: rest else (k', v') :: dictSet rest k v

/-- Python `del dict[key]` (no-op when the key is absent, matching the
guarded deletes in the source). -/
def dictDel : List (ClientId × Channel) → ClientId → List (ClientId × Channel)
  | [], _ => []
  | (k', v') :: rest, k => if k' = k then rest else (k', v') :: dictDel rest k

/-- `ConnectionManager._safe_send_json`: try to send, absorb any exception,
report success as a Bool. -/
def safe_send_json (st : ManagerState) (websocket : Channel) (data : Msg) :
    Bool × ManagerState :=
  if websocket.fails then (false, st)
  else (true, { st with sent := st.sent ++ [(websocket.handle, data)] })

/-- `ConnectionManager.get_other_clients`. -/
def get_other_clients (st : ManagerState) (client_id : ClientId) : List ClientId :=
  (keys st.active_connections).filter (fun cid => decide (cid ≠ client_id))

/-- The delivery loop inside `ConnectionManager.broadcast`: iterate over a
snapshot of `active_connections`, skip the excluded id, attempt each send
(`try: await websocket.send_json(message) except: collect`), returning the
updated trace and the list of clients whose send failed, in iteration
order. -/
def broadcastPass (st : ManagerState) (snapshot : List (ClientId × Channel))
    (message : Msg) (exclude : Option ClientId) : ManagerState × List ClientId :=
  match snapshot with
  | [] => (st, [])
  | (client_id, websocket) :: rest =>
    if some client_id = exclude then
      broadcastPass st rest message exclude
    else if websocket.fails then
      let r := broadcastPass st rest message exclude
      (r.1, client_id :: r.2)
    else
      broadcastPass
        { st with sent := st.sent ++ [(websocket.handle, message)] }
        rest message exclude

/-- The locked section of `ConnectionManager.disconnect`: if the id is
present, `close()` its channel (errors ignored; the attempt is recorded in
`closed`) and delete the entry. -/
def removeClose (st : ManagerState) (client_id : ClientId) : ManagerState :=
  match dictGet st.active_connections client_id with
  | some ws =>
    { st with
        active_connections := dictDel st.active_connections client_id,
        closed := st.closed ++ [ws.handle] }
  | none => st

/-- The mutual recursion `disconnect` ↔ `broadcast` run as a depth-first
work list: pop a client id, run the locked remove/close section, run its
`user_left` delivery pass (the `users_online` field is the registry size
after the removal, no exclusion), and push the pass's freshly failed
clients in front of the remaining work.  Fuel bounds the recursion; the
flag records whether the work list drained before the fuel ran out. -/
def cascade : Nat → ManagerState → List ClientId → ManagerState × Bool
  | _, st, [] => (st, true)
  | 0, st, _ :: _ => (st, false)
  | fuel + 1, st, c :: cs =>
    let st1 := removeClose st c
    let pass := broadcastPass st1 st1.active_connections
      (Msg.user_left c st1.active_connections.length) none
    cascade fuel pass.1 (pass.2 ++ cs)

/-- `ConnectionManager.disconnect`: remove/close if present, then broadcast
`user_left` with the post-removal count (which is exactly one `cascade`
step on the singleton work list). -/
def disconnect (fuel : Nat) (st : ManagerState) (client_id : ClientId) :
    ManagerState × Bool :=
  cascade fuel st [client_id]

/-- `ConnectionManager.broadcast`: the delivery pass over the current
registry, then a `disconnect` of each client whose send failed. -/
def broadcast (fuel : Nat) (st : ManagerState) (message : Msg)
    (exclude : Option ClientId) : ManagerState × Bool :=
  let pass := broadcastPass st st.active_connections message exclude
  cascade fuel pass.1 pass.2

/-- `ConnectionManager.send_to`: deliver only if the target is registered;
`some (result, state)` is a completed call with its Python return value.
On a raising send the source awaits `self.disconnect(target_id)` while
still inside `async with self.lock`; `disconnect` immediately re-acquires
the same non-reentrant `asyncio.Lock`, so the coroutine blocks forever
before any mutation (`disconnect`'s close and delete sit inside its
never-entered lock block): the call never returns and no state change
ever results — modelled as `none`. -/
def send_to (st : ManagerState) (target_id : ClientId)
    (message : Msg) : Option (Bool × ManagerState) :=
  match dictGet st.active_connections target_id with
  | some ws =>
    if ws.fails then none
    else some (true, { st with sent := st.sent ++ [(ws.handle, message)] })
  | none => some (false, st)

/-- The welcome text sent in the `connected` acknowledgement. -/
def welcomeText : String := "Соединение установлено"

/-- `ConnectionManager.connect`: install the record (replacing any prior
record under the same identifier), send the `connected` acknowledgement
through `_safe_send_json`, and if any other client is registered broadcast
`user_joined` with the new total count, excluding the new client. -/
def connect (fuel : Nat) (st : ManagerState) (websocket : Channel)
    (client_id : ClientId) : ManagerState × Bool :=
  let st1 :=
    { st with active_connections := dictSet st.active_connections client_id websocket }
  let st2 := (safe_send_json st1 websocket (Msg.connected client_id welcomeText)).2
  let other_users := get_other_clients st2 client_id
  if other_users.isEmpty then (st2, true)
  else
    broadcast fuel st2
      (Msg.user_joined client_id st2.active_connections.length) (some client_id)

/-- The registry snapshot operation (`list(manager.active_connections.keys())`). -/
def listIDs (st : ManagerState) : List ClientId := keys st.active_connections

/-- An inbound JSON message as read by `handle_message`: each `data.get(k)`
the handler performs is a field (absent key ↦ `none`).  The `client_id`
field is carried by the wire format but never read by the handler. -/
structure InMsg where
  type : Option String
  client_id : Option String
  target : Option String
  offer : Option String
  answer : Option String
  candidate : Option String
deriving DecidableEq, Repr

/-- `handle_message(websocket, client_id, data)`: the `client_id` argument
is the path-derived identity the endpoint `/ws/{client_id}` passed in, and
`websocket` is that client's own channel.  `get_users` replies directly to
the sender; `offer`/`answer`/`ice_candidate` forward to `data["target"]`
when that value is truthy (non-empty) and registered, stamping `sender`
with the path-derived identity; anything else is dropped.  The Boolean
records whether the handler ran to completion: when the awaited `send_to`
deadlocks (registered target, raising channel) the handler never returns,
and the pair `(st, false)` records the unchanged observable state at the
point of blocking.  The `fuel` parameter bounds the disconnect cascades of
the other manager operations; no cascade can start inside `handle_message`
because a failing targeted send blocks before `disconnect` executes. -/
def handle_message (_fuel : Nat) (st : ManagerState) (websocket : Channel)
    (client_id : ClientId) (data : InMsg) : ManagerState × Bool :=
  if data.type = some "get_users" then
    let users := keys st.active_connections
    ((safe_send_json st websocket (Msg.users_list users users.length)).2, true)
  else if data.type = some "offer" then
    match data.target with
    | some target =>
      if target ≠ "" ∧ hasKey st.active_connections target = true then
        match send_to st target (Msg.offer data.offer client_id) with
        | some r => (r.2, true)
        | none => (st, false)
      else (st, true)
    | none => (st, true)
  else if data.type = some "answer" then
    match data.target with
    | some target =>
      if target ≠ "" ∧ hasKey st.active_connections target = true then
        match send_to st target (Msg.answer data.answer client_id) with
        | some r => (r.2, true)
        | none => (st, false)
      else (st, true)
    | none => (st, true)
  else if data.type = some "ice_candidate" then
    match data.target with
    | some target =>
      if target ≠ "" ∧ hasKey st.active_connections target = true then
        match send_to st target (Msg.ice_candidate data.candidate client_id) with
        | some r => (r.2, true)
        | none => (st, false)
      else (st, true)
    | none => (st, true)
  else (st, true)

/-- A registry-lifecycle operation, for properties over operation
sequences. -/
inductive Op where
  | connect (client_id : ClientId) (websocket : Channel)
  | disconnect (client_id : ClientId)
deriving DecidableEq, Repr

/-- Apply one lifecycle operation. -/
def applyOp (fuel : Nat) (st : ManagerState) : Op → ManagerState
  | Op.connect cid ws => (connect fuel st ws cid).1
  | Op.disconnect cid => (disconnect fuel st cid).1

/-- Run a sequence of lifecycle operations. -/
def runOps (fuel : Nat) (st : ManagerState) : List Op → ManagerState
  | [] => st
  | op :: rest => runOps fuel (applyOp fuel st op) rest

/-- One step of the spec-side membership recurrence. -/
def specStep (id : ClientId) (acc : Bool) : Op → Bool
  | Op.connect c _ => if c = id then true else acc
  | Op.disconnect c => if c = id then false else acc

/-- Modelled from the spec's words (for the refinement claim about
operation sequences): an identifier is a member after a sequence exactly
when it was connected and not subsequently disconnected. -/
def specMember (ops : List Op) (id : ClientId) : Bool :=
  ops.foldl (specStep id) false

/-- A lifecycle operation whose channel (if any) delivers successfully. -/
def opOk : Op → Bool
  | Op.connect _ ws => !ws.fails
  | Op.disconnect _ => true

/-- Every registered channel delivers successfully. -/
def allOk (st : ManagerState) : Prop :=
  ∀ p ∈ st.active_connections, p.2.fails = false

/-- The registry keys are distinct (a Python dict invariant). -/
def keysNodup (st : ManagerState) : Prop :=
  (keys st.active_connections).Nodup

/-- The events a delivery pass appends: one per non-excluded, non-failing
snapshot entry, in order. -/
def deliveredTo (snapshot : List (ClientId × Channel)) (message : Msg)
    (exclude : Option ClientId) : List (Handle × Msg) :=
  (snapshot.filter (fun p => decide (some p.1 ≠ exclude) && !p.2.fails)).map
    (fun p => (p.2.handle, message))

/-- The clients a delivery pass collects as failed, in order. -/
def failedOf (snapshot : List (ClientId × Channel)) (exclude : Option ClientId) :
    List ClientId :=
  (snapshot.filter (fun p => decide (some p.1 ≠ exclude) && p.2.fails)).map Prod.fst

/-- How many times a given message was delivered to a given handle. -/
def countSends (tr : List (Handle × Msg)) (h : Handle) (m : Msg) : Nat :=
  (tr.filter (fun e => decide (e.1 = h ∧ e.2 = m))).length

/-- The relay-stamped sender of a forwarded message, when there is one. -/
def senderOf : Msg → Option ClientId
  | Msg.offer _ s => some s
  | Msg.answer _ s => some s
  | Msg.ice_candidate _ s => some s
  | _ => none

/-! Concrete fixtures used to evaluate the verified statements on sample
runs. -/

/-- A healthy channel. -/
def chA : Channel := ⟨0, false⟩

/-- A second healthy channel. -/
def chB : Channel := ⟨1, false⟩

/-- A channel whose sends raise. -/
def chBad : Channel := ⟨2, true⟩

/-- A third healthy channel. -/
def chC : Channel := ⟨3, false⟩

/-- A registry with just client B. -/
def stB : ManagerState := ⟨[("B", chB)], [], []⟩

/-- A registry with clients A and B, both healthy. -/
def stAB : ManagerState := ⟨[("A", chA), ("B", chB)], [], []⟩

/-- A registry where client B's channel is dead. -/
def stP : ManagerState := ⟨[("A", chA), ("B", chBad), ("C", chC)], [], []⟩

/-- A registry with a single client X whose channel is dead. -/
def stX : ManagerState := ⟨[("X", chBad)], [], []⟩

/-- An inbound `get_users` request. -/
def dGetUsers : InMsg := ⟨some "get_users", none, none, none, none, none⟩

/-- An inbound offer from the wire, targeting B. -/
def dOffer : InMsg := ⟨some "offer", some "A", some "B", some "sdp-offer", none, none⟩

/-- The same offer with a spoofed `client_id` body field. -/
def dOfferSpoof : InMsg :=
  ⟨some "offer", some "MALLORY", some "B", some "sdp-offer", none, none⟩

/-- An inbound offer whose target is not registered. -/
def dOfferMiss : InMsg := ⟨some "offer", some "A", some "Z", some "sdp-offer", none, none⟩

/-- A sample connect/disconnect workload: A connects twice (replacement),
B connects, then B disconnects. -/
def opsW : List Op :=
  [Op.connect "A" chA, Op.connect "A" chB, Op.connect "B" chC, Op.disconnect "B"]

/-- A sample broadcast payload that is not a user_left message. -/
def mW : Msg := Msg.user_joined "X" 9

/-! ### Dictionary lemmas -/

theorem keys_nil : keys ([] : List (ClientId × Channel)) = [] := rfl

theorem keys_cons (k : ClientId) (ch : Channel) (rest : List (ClientId × Channel)) :
    keys ((k, ch) :: rest) = k :: keys rest := rfl

theorem mem_keys_of_mem {l : List (ClientId × Channel)} {p : ClientId × Channel}
    (h : p ∈ l) : p.1 ∈ keys l :=
  List.mem_map_of_mem Prod.fst h

theorem hasKey_iff (l : List (ClientId × Channel)) (k : ClientId) :
    hasKey l k = true ↔ k ∈ keys l := by
  induction l with
  | nil => simp [hasKey, keys_nil]
  | cons p rest ih =>
    obtain ⟨k', v'⟩ := p
    by_cases h : k' = k
    · subst h
      simp [hasKey, keys_cons]
    · rw [keys_cons]
      simp only [hasKey, if_neg h, List.mem_cons, ih]
      constructor
      · exact Or.inr
      · rintro (rfl | hk)
        · exact absurd rfl h
        · exact hk

theorem dictGet_eq_none_iff (l : List (ClientId × Channel)) (k : ClientId) :
    dictGet l k = none ↔ k ∉ keys l := by
  induction l with
  | nil => simp [dictGet, keys_nil]
  | cons p rest ih =>
    obtain ⟨k', v'⟩ := p
    by_cases h : k' = k
    · subst h
      simp [dictGet, keys_cons]
    · rw [keys_cons]
      simp only [dictGet, if_neg h, List.mem_cons, ih]
      constructor
      · intro hk hor
        rcases hor with rfl | hm
        · exact h rfl
        · exact hk hm
      · intro hk hm
        exact hk (Or.inr hm)

theorem dictGet_mem {l : List (ClientId × Channel)} {k : ClientId} {v : Channel}
    (h : dictGet l k = some v) : (k, v) ∈ l := by
  induction l with
  | nil => simp [dictGet] at h
  | cons p rest ih =>
    obtain ⟨k', v'⟩ := p
    by_cases hk : k' = k
    · subst hk
      simp [dictGet] at h
      simp [h]
    · simp only [dictGet, if_neg hk] at h
      exact List.mem_cons_of_mem _ (ih h)

theorem dictGet_of_mem {l : List (ClientId × Channel)} {k : ClientId} {v : Channel}
    (hnd : (keys l).Nodup) (h : (k, v) ∈ l) : dictGet l k = some v := by
  induction l with
  | nil => simp at h
  | cons p rest ih =>
    obtain ⟨k', v'⟩ := p
    rw [keys_cons] at hnd
    have hnd' := List.nodup_cons.mp hnd
    rcases List.mem_cons.mp h with h1 | h1
    · rw [Prod.mk.injEq] at h1
      obtain ⟨rfl, rfl⟩ := h1
      simp [dictGet]
    · have hk : k' ≠ k := by
        intro he
        subst he
        exact hnd'.1 (mem_keys_of_mem h1)
      simp only [dictGet, if_neg hk]
      exact ih hnd'.2 h1

theorem mem_keys_dictSet (l : List (ClientId × Channel)) (k : ClientId)
    (v : Channel) (a : ClientId) :
    a ∈ keys (dictSet l k v) ↔ a = k ∨ a ∈ keys l := by
  induction l with
  | nil => simp [dictSet, keys_cons, keys_nil]
  | cons p rest ih =>
    obtain ⟨k', v'⟩ := p
    by_cases h : k' = k
    · subst h
      simp [dictSet, keys_cons]
    · simp only [dictSet, if_neg h, keys_cons, List.mem_cons, ih]
      tauto

theorem mem_dictSet {l : List (ClientId × Channel)} {k : ClientId} {v : Channel}
    {p : ClientId × Channel} (h : p ∈ dictSet l k v) : p = (k, v) ∨ p ∈ l := by
  induction l with
  | nil => simpa [dictSet] using h
  | cons q rest ih =>
    obtain ⟨k', v'⟩ := q
    by_cases hq : k' = k
    · subst hq
      simp only [dictSet, if_pos rfl] at h
      rcases List.mem_cons.mp h with h1 | h1
      · exact Or.inl h1
      · exact Or.inr (List.mem_cons_of_mem _ h1)
    · simp only [dictSet, if_neg hq, List.mem_cons] at h
      rcases h with h1 | h1
      · exact Or.inr (h1 ▸ List.mem_cons_self _ _)
      · rcases ih h1 with h2 | h2
        · exact Or.inl h2
        · exact Or.inr (List.mem_cons_of_mem _ h2)

theorem keys_dictSet (l : List (ClientId × Channel)) (k : ClientId) (v : Channel) :
    keys (dictSet l k v) = if hasKey l k then keys l else keys l ++ [k] := by
  induction l with
  | nil => simp [dictSet, hasKey, keys_cons, keys_nil]
  | cons p rest ih =>
    obtain ⟨k', v'⟩ := p
    by_cases h : k' = k
    · subst h
      simp [dictSet, hasKey, keys_cons]
    · simp only [dictSet, hasKey, if_neg h, keys_cons, ih]
      by_cases hk : hasKey rest k <;> simp [hk]

theorem nodup_keys_dictSet {l : List (ClientId × Channel)} (k : ClientId)
    (v : Channel) (hnd : (keys l).Nodup) : (keys (dictSet l k v)).Nodup := by
  rw [keys_dictSet]
  by_cases hk : hasKey l k
  · simpa [hk] using hnd
  · have hmem : k ∉ keys l := fun hm => hk ((hasKey_iff l k).mpr hm)
    simp [hk, List.nodup_append, hnd, hmem]

theorem dictDel_sublist (l : List (ClientId × Channel)) (k : ClientId) :
    List.Sublist (dictDel l k) l := by
  induction l with
  | nil => simp [dictDel]
  | cons p rest ih =>
    obtain ⟨k', v'⟩ := p
    by_cases h : k' = k
    · rw [show dictDel ((k', v') :: rest) k = rest from by simp [dictDel, h]]
      exact List.sublist_cons_self _ _
    · rw [show dictDel ((k', v') :: rest) k = (k', v') :: dictDel rest k from by
        simp [dictDel, h]]
      exact List.Sublist.cons₂ _ ih

theorem dictDel_of_not_mem {l : List (ClientId × Channel)} {k : ClientId}
    (h : k ∉ keys l) : dictDel l k = l := by
  induction l with
  | nil => rfl
  | cons p rest ih =>
    obtain ⟨k', v'⟩ := p
    rw [keys_cons] at h
    have h1 : k' ≠ k := fun he => h (he ▸ List.mem_cons_self _ _)
    have h2 : k ∉ keys rest := fun hm => h (List.mem_cons_of_mem _ hm)
    simp [dictDel, h1, ih h2]

theorem mem_dictDel {l : List (ClientId × Channel)} {k : ClientId}
    {p : ClientId × Channel} (hnd : (keys l).Nodup) :
    p ∈ dictDel l k ↔ p ∈ l ∧ p.1 ≠ k := by
  induction l with
  | nil => simp [dictDel]
  | cons q rest ih =>
    obtain ⟨k', v'⟩ := q
    rw [keys_cons] at hnd
    have hnd' := List.nodup_cons.mp hnd
    by_cases h : k' = k
    · subst h
      rw [show dictDel ((k', v') :: rest) k' = rest by simp [dictDel]]
      simp only [List.mem_cons]
      constructor
      · intro hp
        refine ⟨Or.inr hp, ?_⟩
        intro he
        subst he
        exact hnd'.1 (mem_keys_of_mem hp)
      · rintro ⟨hor, hne⟩
        rcases hor with rfl | hp
        · exact absurd rfl hne
        · exact hp
    · simp only [dictDel, if_neg h, List.mem_cons, ih hnd'.2]
      constructor
      · rintro (rfl | ⟨hp, hne⟩)
        · exact ⟨Or.inl rfl, h⟩
        · exact ⟨Or.inr hp, hne⟩
      · rintro ⟨hor, hne⟩
        rcases hor with rfl | hp
        · exact Or.inl rfl
        · exact Or.inr ⟨hp, hne⟩

theorem mem_keys {l : List (ClientId × Channel)} {a : ClientId} :
    a ∈ keys l ↔ ∃ ch, (a, ch) ∈ l := by
  constructor
  · intro h
    rcases List.mem_map.mp h with ⟨⟨b, ch⟩, hp, he⟩
    cases he
    exact ⟨ch, hp⟩
  · rintro ⟨ch, h⟩
    exact mem_keys_of_mem h

theorem mem_keys_dictDel {l : List (ClientId × Channel)} {k : ClientId}
    {a : ClientId} (hnd : (keys l).Nodup) :
    a ∈ keys (dictDel l k) ↔ a ∈ keys l ∧ a ≠ k := by
  constructor
  · intro h
    obtain ⟨ch, hp⟩ := mem_keys.mp h
    have := (mem_dictDel hnd).mp hp
    exact ⟨mem_keys_of_mem this.1, this.2⟩
  · rintro ⟨h1, h2⟩
    obtain ⟨ch, hp⟩ := mem_keys.mp h1
    exact mem_keys_of_mem ((mem_dictDel hnd).mpr ⟨hp, h2⟩)

theorem nodup_keys_dictDel {l : List (ClientId × Channel)} (k : ClientId)
    (hnd : (keys l).Nodup) : (keys (dictDel l k)).Nodup :=
  List.Nodup.sublist (List.Sublist.map Prod.fst (dictDel_sublist l k)) hnd

/-! ### Delivery pass lemmas -/

theorem broadcastPass_eq (snapshot : List (ClientId × Channel)) (st : ManagerState)
    (m : Msg) (ex : Option ClientId) :
    broadcastPass st snapshot m ex =
      ({ st with sent := st.sent ++ deliveredTo snapshot m ex }, failedOf snapshot ex) := by
  induction snapshot generalizing st with
  | nil => simp [broadcastPass, deliveredTo, failedOf]
  | cons p rest ih =>
    obtain ⟨cid, ws⟩ := p
    by_cases hex : some cid = ex
    · simp [broadcastPass, if_pos hex, deliveredTo, failedOf, List.filter_cons, hex, ih]
    · by_cases hf : ws.fails
      · simp [broadcastPass, if_neg hex, deliveredTo, failedOf, List.filter_cons,
          hex, hf, ih]
      · simp [broadcastPass, if_neg hex, deliveredTo, failedOf, List.filter_cons,
          hex, hf, ih]

theorem active_broadcastPass (snapshot : List (ClientId × Channel)) (st : ManagerState)
    (m : Msg) (ex : Option ClientId) :
    (broadcastPass st snapshot m ex).1.active_connections = st.active_connections := by
  rw [broadcastPass_eq]

theorem closed_broadcastPass (snapshot : List (ClientId × Channel)) (st : ManagerState)
    (m : Msg) (ex : Option ClientId) :
    (broadcastPass st snapshot m ex).1.closed = st.closed := by
  rw [broadcastPass_eq]

theorem sent_broadcastPass (snapshot : List (ClientId × Channel)) (st : ManagerState)
    (m : Msg) (ex : Option ClientId) :
    (broadcastPass st snapshot m ex).1.sent = st.sent ++ deliveredTo snapshot m ex := by
  rw [broadcastPass_eq]

theorem failed_broadcastPass (snapshot : List (ClientId × Channel)) (st : ManagerState)
    (m : Msg) (ex : Option ClientId) :
    (broadcastPass st snapshot m ex).2 = failedOf snapshot ex := by
  rw [broadcastPass_eq]

theorem failedOf_allOk {snapshot : List (ClientId × Channel)} (ex : Option ClientId)
    (hok : ∀ p ∈ snapshot, p.2.fails = false) : failedOf snapshot ex = [] := by
  unfold failedOf
  rw [show snapshot.filter (fun p => decide (some p.1 ≠ ex) && p.2.fails) = [] from ?_]
  · rfl
  · rw [List.filter_eq_nil_iff]
    intro p hp
    simp [hok p hp]

theorem mem_deliveredTo {snapshot : List (ClientId × Channel)} {m : Msg}
    {ex : Option ClientId} {q : ClientId × Channel} (hq : q ∈ snapshot)
    (hok : q.2.fails = false) (hex : some q.1 ≠ ex) :
    (q.2.handle, m) ∈ deliveredTo snapshot m ex := by
  unfold deliveredTo
  exact List.mem_map_of_mem _ (List.mem_filter.mpr ⟨hq, by simp [hex, hok]⟩)

theorem mem_failedOf {snapshot : List (ClientId × Channel)} {ex : Option ClientId}
    {q : ClientId × Channel} (hq : q ∈ snapshot) (hbad : q.2.fails = true)
    (hex : some q.1 ≠ ex) : q.1 ∈ failedOf snapshot ex := by
  unfold failedOf
  exact List.mem_map_of_mem _ (List.mem_filter.mpr ⟨hq, by simp [hex, hbad]⟩)

theorem deliveredTo_msg {snapshot : List (ClientId × Channel)} {m : Msg}
    {ex : Option ClientId} {e : Handle × Msg} (he : e ∈ deliveredTo snapshot m ex) :
    e.2 = m := by
  unfold deliveredTo at he
  rcases List.mem_map.mp he with ⟨p, _, rfl⟩
  rfl

/-! ### Counting lemmas -/

theorem countSends_nil (h : Handle) (m : Msg) : countSends [] h m = 0 := rfl

theorem countSends_append (a b : List (Handle × Msg)) (h : Handle) (m : Msg) :
    countSends (a ++ b) h m = countSends a h m + countSends b h m := by
  simp [countSends, List.filter_append]

theorem countSends_map_handle (l : List (ClientId × Channel)) (m : Msg) (h : Handle) :
    countSends (l.map (fun p => (p.2.handle, m))) h m
      = (l.filter (fun p => decide (p.2.handle = h))).length := by
  induction l with
  | nil => rfl
  | cons p rest ih =>
    by_cases hp : p.2.handle = h
    · simp [countSends, List.filter_cons, hp] at ih ⊢
      exact ih
    · simp [countSends, List.filter_cons, hp] at ih ⊢
      exact ih

theorem countSends_map_ne (l : List (ClientId × Channel)) (m m' : Msg) (h : Handle)
    (hne : m' ≠ m) :
    countSends (l.map (fun p => (p.2.handle, m))) h m' = 0 := by
  induction l with
  | nil => rfl
  | cons p rest ih =>
    simp [countSends, List.filter_cons, Ne.symm hne] at ih ⊢
    exact ih

theorem countSends_all_user_left {δ : List (Handle × Msg)} {m : Msg} (h : Handle)
    (hm : ∀ c k, m ≠ Msg.user_left c k)
    (hδ : ∀ e ∈ δ, ∃ c k, e.2 = Msg.user_left c k) : countSends δ h m = 0 := by
  induction δ with
  | nil => rfl
  | cons e rest ih =>
    obtain ⟨c, k, he⟩ := hδ e (List.mem_cons_self _ _)
    have hne : ¬(e.1 = h ∧ e.2 = m) := by
      rintro ⟨-, h2⟩
      exact hm c k (h2 ▸ he)
    have ih' := ih (fun e' he' => hδ e' (List.mem_cons_of_mem _ he'))
    simp [countSends, List.filter_cons, hne] at ih' ⊢
    exact ih'

theorem filter_eq_single {α : Type} (l : List α) (q : α) (π : α → Bool)
    (hnd : l.Nodup) (hq : q ∈ l) (hπ : π q = true)
    (hu : ∀ p ∈ l, π p = true → p = q) : l.filter π = [q] := by
  induction l with
  | nil => simp at hq
  | cons a rest ih =>
    have hnd' := List.nodup_cons.mp hnd
    rcases List.mem_cons.mp hq with rfl | hmem
    · rw [List.filter_cons_of_pos hπ]
      have hrest : rest.filter π = [] := by
        rw [List.filter_eq_nil_iff]
        intro p hp hcon
        exact hnd'.1 (hu p (List.mem_cons_of_mem _ hp) hcon ▸ hp)
      rw [hrest]
    · have ha : ¬(π a = true) := by
        intro hcon
        have : a = q := hu a (List.mem_cons_self _ _) hcon
        exact hnd'.1 (this ▸ hmem)
      rw [List.filter_cons_of_neg (by simpa using ha)]
      exact ih hnd'.2 hmem (fun p hp hpp => hu p (List.mem_cons_of_mem _ hp) hpp)

/-! ### Cascade lemmas -/

theorem cascade_nil (fuel : Nat) (st : ManagerState) :
    cascade fuel st [] = (st, true) := by
  cases fuel <;> rfl

theorem cascade_succ (f : Nat) (st : ManagerState) (c : ClientId) (cs : List ClientId) :
    cascade (f + 1) st (c :: cs) =
      cascade f
        (broadcastPass (removeClose st c) (removeClose st c).active_connections
          (Msg.user_left c (removeClose st c).active_connections.length) none).1
        ((broadcastPass (removeClose st c) (removeClose st c).active_connections
          (Msg.user_left c (removeClose st c).active_connections.length) none).2 ++ cs) :=
  rfl

theorem active_removeClose (st : ManagerState) (c : ClientId) :
    (removeClose st c).active_connections = dictDel st.active_connections c := by
  unfold removeClose
  cases hg : dictGet st.active_connections c with
  | none => simpa using (dictDel_of_not_mem ((dictGet_eq_none_iff _ _).mp hg)).symm
  | some ws => rfl

theorem sent_removeClose (st : ManagerState) (c : ClientId) :
    (removeClose st c).sent = st.sent := by
  unfold removeClose
  cases dictGet st.active_connections c <;> rfl

theorem cascade_active_sublist (fuel : Nat) (st : ManagerState) (stack : List ClientId) :
    List.Sublist (cascade fuel st stack).1.active_connections st.active_connections := by
  induction fuel generalizing st stack with
  | zero =>
    cases stack with
    | nil => exact List.Sublist.refl _
    | cons c cs => exact List.Sublist.refl _
  | succ f ih =>
    cases stack with
    | nil =>
      rw [cascade_nil]
    | cons c cs =>
      rw [cascade_succ]
      refine List.Sublist.trans (ih _ _) ?_
      rw [active_broadcastPass, active_removeClose]
      exact dictDel_sublist _ _

theorem cascade_sent_delta (fuel : Nat) (st : ManagerState) (stack : List ClientId) :
    ∃ δ, (cascade fuel st stack).1.sent = st.sent ++ δ ∧
      ∀ e ∈ δ, ∃ c k, e.2 = Msg.user_left c k := by
  induction fuel generalizing st stack with
  | zero =>
    cases stack with
    | nil => exact ⟨[], by simp [cascade_nil]⟩
    | cons c cs => exact ⟨[], by simp [cascade]⟩
  | succ f ih =>
    cases stack with
    | nil => exact ⟨[], by simp [cascade_nil]⟩
    | cons c cs =>
      rw [cascade_succ]
      obtain ⟨δ, hδ, hul⟩ := ih
        (broadcastPass (removeClose st c) (removeClose st c).active_connections
          (Msg.user_left c (removeClose st c).active_connections.length) none).1
        ((broadcastPass (removeClose st c) (removeClose st c).active_connections
          (Msg.user_left c (removeClose st c).active_connections.length) none).2 ++ cs)
      refine ⟨deliveredTo (removeClose st c).active_connections
        (Msg.user_left c (removeClose st c).active_connections.length) none ++ δ, ?_, ?_⟩
      · rw [hδ, sent_broadcastPass, sent_removeClose, List.append_assoc]
      · intro e he
        rcases List.mem_append.mp he with h1 | h1
        · exact ⟨c, _, deliveredTo_msg h1⟩
        · exact hul e h1

theorem cascade_sent_mono {fuel : Nat} {st : ManagerState} {stack : List ClientId}
    {e : Handle × Msg} (he : e ∈ st.sent) : e ∈ (cascade fuel st stack).1.sent := by
  obtain ⟨δ, hδ, -⟩ := cascade_sent_delta fuel st stack
  rw [hδ]
  exact List.mem_append_left _ he

theorem cascade_nodup (fuel : Nat) (st : ManagerState) (stack : List ClientId)
    (hnd : (keys st.active_connections).Nodup) :
    (keys (cascade fuel st stack).1.active_connections).Nodup :=
  List.Nodup.sublist (List.Sublist.map Prod.fst (cascade_active_sublist fuel st stack)) hnd

theorem cascade_done_not_mem (fuel : Nat) (st : ManagerState) (stack : List ClientId)
    (hnd : (keys st.active_connections).Nodup)
    (hdone : (cascade fuel st stack).2 = true) :
    ∀ c ∈ stack, c ∉ keys (cascade fuel st stack).1.active_connections := by
  induction fuel generalizing st stack with
  | zero =>
    cases stack with
    | nil => simp
    | cons c cs => simp [cascade] at hdone
  | succ f ih =>
    cases stack with
    | nil => simp
    | cons c cs =>
      rw [cascade_succ] at hdone ⊢
      intro c' hc'
      have hndp : (keys (broadcastPass (removeClose st c)
          (removeClose st c).active_connections
          (Msg.user_left c (removeClose st c).active_connections.length)
          none).1.active_connections).Nodup := by
        rw [active_broadcastPass, active_removeClose]
        exact nodup_keys_dictDel _ hnd
      rcases List.mem_cons.mp hc' with rfl | hmem
      · intro hcon
        have hsub := List.Sublist.subset (List.Sublist.map Prod.fst
          (cascade_active_sublist f _ _)) hcon
        rw [active_broadcastPass, active_removeClose] at hsub
        exact ((mem_keys_dictDel hnd).mp hsub).2 rfl
      · exact ih _ _ hndp hdone c' (List.mem_append_right _ hmem)

theorem cascade_user_left (fuel : Nat) (st : ManagerState) (stack : List ClientId)
    (hdone : (cascade fuel st stack).2 = true) :
    ∀ c ∈ stack, ∀ q ∈ (cascade fuel st stack).1.active_connections,
      q.2.fails = false →
      ∃ k, (q.2.handle, Msg.user_left c k) ∈ (cascade fuel st stack).1.sent := by
  induction fuel generalizing st stack with
  | zero =>
    cases stack with
    | nil => simp
    | cons c cs => simp [cascade] at hdone
  | succ f ih =>
    cases stack with
    | nil => simp
    | cons c cs =>
      rw [cascade_succ] at hdone ⊢
      intro c' hc' q hq hok
      rcases List.mem_cons.mp hc' with rfl | hmem
      · have hq1 : q ∈ (removeClose st c').active_connections := by
          have hsub := List.Sublist.subset (cascade_active_sublist f _ _) hq
          rwa [active_broadcastPass] at hsub
        refine ⟨(removeClose st c').active_connections.length, cascade_sent_mono ?_⟩
        rw [sent_broadcastPass, sent_removeClose]
        exact List.mem_append_right _ (mem_deliveredTo hq1 hok (by simp))
      · exact ih _ _ hdone c' (List.mem_append_right _ hmem) q hq hok

/-! ### Operation-level equations -/

theorem allOk_dictSet {st : ManagerState} {cid : ClientId} {ws : Channel}
    (hok : allOk st) (hws : ws.fails = false) :
    ∀ p ∈ dictSet st.active_connections cid ws, p.2.fails = false := by
  intro p hp
  rcases mem_dictSet hp with rfl | hmem
  · exact hws
  · exact hok p hmem

theorem allOk_sub {l l' : List (ClientId × Channel)} (hsub : List.Sublist l' l)
    (hok : ∀ p ∈ l, p.2.fails = false) : ∀ p ∈ l', p.2.fails = false :=
  fun p hp => hok p (hsub.subset hp)

theorem removeClose_eq (st : ManagerState) (cid : ClientId) :
    removeClose st cid =
      { active_connections := dictDel st.active_connections cid,
        sent := st.sent,
        closed := st.closed ++ (dictGet st.active_connections cid).elim []
          (fun ws => [ws.handle]) } := by
  unfold removeClose
  cases hg : dictGet st.active_connections cid with
  | none =>
    simp [dictDel_of_not_mem ((dictGet_eq_none_iff _ _).mp hg)]
  | some ws => simp

theorem failedOf_dictSet (st : ManagerState) (cid : ClientId) (ws : Channel)
    (hok : allOk st) :
    failedOf (dictSet st.active_connections cid ws) (some cid) = [] := by
  have h : (dictSet st.active_connections cid ws).filter
      (fun p => decide (some p.1 ≠ some cid) && p.2.fails) = [] := by
    rw [List.filter_eq_nil_iff]
    intro p hp
    rcases mem_dictSet hp with rfl | hmem
    · simp
    · simp [hok p hmem]
  unfold failedOf
  rw [h]
  rfl

theorem deliveredTo_exclude_all {l : List (ClientId × Channel)} {cid : ClientId}
    (h : ∀ k ∈ keys l, k = cid) (m : Msg) :
    deliveredTo l m (some cid) = [] := by
  have hf : l.filter (fun p => decide (some p.1 ≠ some cid) && !p.2.fails) = [] := by
    rw [List.filter_eq_nil_iff]
    intro p hp
    simp [h p.1 (mem_keys_of_mem hp)]
  unfold deliveredTo
  rw [hf]
  rfl

theorem failedOf_nil {snapshot : List (ClientId × Channel)} {ex : Option ClientId}
    (hok : ∀ p ∈ snapshot, some p.1 ≠ ex → p.2.fails = false) :
    failedOf snapshot ex = [] := by
  have h : snapshot.filter (fun p => decide (some p.1 ≠ ex) && p.2.fails) = [] := by
    rw [List.filter_eq_nil_iff]
    intro p hp
    by_cases hex : some p.1 = ex
    · simp [hex]
    · simp [hex, hok p hp hex]
  unfold failedOf
  rw [h]
  rfl

theorem broadcast_ok_eq (fuel : Nat) (st : ManagerState) (m : Msg)
    (ex : Option ClientId)
    (hok : ∀ p ∈ st.active_connections, some p.1 ≠ ex → p.2.fails = false) :
    broadcast fuel st m ex =
      ({ st with sent := st.sent ++ deliveredTo st.active_connections m ex }, true) := by
  unfold broadcast
  rw [broadcastPass_eq]
  simp only
  rw [failedOf_nil hok, cascade_nil]

theorem broadcast_allOk_eq (fuel : Nat) (st : ManagerState) (m : Msg)
    (ex : Option ClientId) (hok : allOk st) :
    broadcast fuel st m ex =
      ({ st with sent := st.sent ++ deliveredTo st.active_connections m ex }, true) :=
  broadcast_ok_eq fuel st m ex (fun p hp _ => hok p hp)

theorem disconnect_eq (f : Nat) (st : ManagerState) (cid : ClientId)
    (hok : ∀ p ∈ dictDel st.active_connections cid, p.2.fails = false) :
    disconnect (f + 1) st cid =
      ({ active_connections := dictDel st.active_connections cid,
         sent := st.sent ++ deliveredTo (dictDel st.active_connections cid)
           (Msg.user_left cid (dictDel st.active_connections cid).length) none,
         closed := st.closed ++ (dictGet st.active_connections cid).elim []
           (fun ws => [ws.handle]) }, true) := by
  unfold disconnect
  rw [cascade_succ, broadcastPass_eq]
  simp only
  rw [removeClose_eq]
  simp only
  rw [failedOf_allOk none hok, List.append_nil, cascade_nil]

theorem connect_eq (fuel : Nat) (st : ManagerState) (ws : Channel) (cid : ClientId)
    (hok : allOk st) :
    connect fuel st ws cid =
      ({ active_connections := dictSet st.active_connections cid ws,
         sent := (st.sent
             ++ (if ws.fails then [] else [(ws.handle, Msg.connected cid welcomeText)]))
           ++ deliveredTo (dictSet st.active_connections cid ws)
             (Msg.user_joined cid (dictSet st.active_connections cid ws).length)
             (some cid),
         closed := st.closed }, true) := by
  have hok2 : ∀ p ∈ dictSet st.active_connections cid ws,
      some p.1 ≠ some cid → p.2.fails = false := by
    intro p hp hne
    rcases mem_dictSet hp with rfl | h1
    · exact absurd rfl hne
    · exact hok p h1
  have hall : ∀ st' : ManagerState,
      st'.active_connections = dictSet st.active_connections cid ws →
      (get_other_clients st' cid).isEmpty = true →
      ∀ k ∈ keys (dictSet st.active_connections cid ws), k = cid := by
    intro st' ha hemp k hk
    rw [List.isEmpty_iff] at hemp
    unfold get_other_clients at hemp
    rw [ha, List.filter_eq_nil_iff] at hemp
    have h2 := hemp k hk
    simp at h2
    exact h2
  unfold connect safe_send_json
  by_cases hws : ws.fails
  · rw [hws]
    show (if (get_other_clients
          { active_connections := dictSet st.active_connections cid ws,
            sent := st.sent, closed := st.closed } cid).isEmpty = true then
        ({ active_connections := dictSet st.active_connections cid ws,
           sent := st.sent, closed := st.closed }, true)
      else broadcast fuel
        { active_connections := dictSet st.active_connections cid ws,
          sent := st.sent, closed := st.closed }
        (Msg.user_joined cid (dictSet st.active_connections cid ws).length)
        (some cid)) = _
    by_cases hemp : (get_other_clients
        { active_connections := dictSet st.active_connections cid ws,
          sent := st.sent, closed := st.closed } cid).isEmpty
    · rw [if_pos hemp, deliveredTo_exclude_all (hall _ rfl hemp)]
      simp [hws]
    · rw [if_neg hemp, broadcast_ok_eq _ _ _ _ hok2]
      simp [hws]
  · rw [Bool.not_eq_true] at hws
    rw [hws]
    show (if (get_other_clients
          { active_connections := dictSet st.active_connections cid ws,
            sent := st.sent ++ [(ws.handle, Msg.connected cid welcomeText)],
            closed := st.closed } cid).isEmpty = true then
        ({ active_connections := dictSet st.active_connections cid ws,
           sent := st.sent ++ [(ws.handle, Msg.connected cid welcomeText)],
           closed := st.closed }, true)
      else broadcast fuel
        { active_connections := dictSet st.active_connections cid ws,
          sent := st.sent ++ [(ws.handle, Msg.connected cid welcomeText)],
          closed := st.closed }
        (Msg.user_joined cid (dictSet st.active_connections cid ws).length)
        (some cid)) = _
    by_cases hemp : (get_other_clients
        { active_connections := dictSet st.active_connections cid ws,
          sent := st.sent ++ [(ws.handle, Msg.connected cid welcomeText)],
          closed := st.closed } cid).isEmpty
    · rw [if_pos hemp, deliveredTo_exclude_all (hall _ rfl hemp)]
      simp [hws]
    · rw [if_neg hemp, broadcast_ok_eq _ _ _ _ hok2]
      simp [hws]

/-! ### send_to and handle_message branch equations -/

theorem send_to_ok (st : ManagerState) (t : ClientId) (m : Msg)
    (ch : Channel) (hw : dictGet st.active_connections t = some ch)
    (hok : ch.fails = false) :
    send_to st t m =
      some (true, { st with sent := st.sent ++ [(ch.handle, m)] }) := by
  unfold send_to
  rw [hw]
  simp [hok]

theorem send_to_fail (st : ManagerState) (t : ClientId) (m : Msg)
    (ch : Channel) (hw : dictGet st.active_connections t = some ch)
    (hf : ch.fails = true) :
    send_to st t m = none := by
  unfold send_to
  rw [hw]
  simp [hf]

theorem send_to_absent (st : ManagerState) (t : ClientId) (m : Msg)
    (hw : dictGet st.active_connections t = none) :
    send_to st t m = some (false, st) := by
  unfold send_to
  rw [hw]

theorem handle_message_get_users (fuel : Nat) (st : ManagerState) (ws : Channel)
    (cid : ClientId) (d : InMsg) (hd : d.type = some "get_users") :
    handle_message fuel st ws cid d =
      ((safe_send_json st ws (Msg.users_list (keys st.active_connections)
        (keys st.active_connections).length)).2, true) := by
  unfold handle_message
  rw [if_pos hd]

theorem handle_message_offer_present (fuel : Nat) (st : ManagerState) (ws : Channel)
    (cid : ClientId) (d : InMsg) (t : ClientId) (ch : Channel)
    (hd : d.type = some "offer") (ht : d.target = some t) (hne : t ≠ "")
    (hw : dictGet st.active_connections t = some ch) (hok : ch.fails = false) :
    handle_message fuel st ws cid d =
      ({ st with sent := st.sent ++ [(ch.handle, Msg.offer d.offer cid)] }, true) := by
  have hk : hasKey st.active_connections t = true :=
    (hasKey_iff _ _).mpr (mem_keys_of_mem (dictGet_mem hw))
  obtain ⟨ty, bc, tg, off, ans, cand⟩ := d
  simp only at hd ht ⊢
  subst hd
  subst ht
  simp [handle_message, send_to, hw, hok, hne, hk]

theorem handle_message_answer_present (fuel : Nat) (st : ManagerState) (ws : Channel)
    (cid : ClientId) (d : InMsg) (t : ClientId) (ch : Channel)
    (hd : d.type = some "answer") (ht : d.target = some t) (hne : t ≠ "")
    (hw : dictGet st.active_connections t = some ch) (hok : ch.fails = false) :
    handle_message fuel st ws cid d =
      ({ st with sent := st.sent ++ [(ch.handle, Msg.answer d.answer cid)] }, true) := by
  have hk : hasKey st.active_connections t = true :=
    (hasKey_iff _ _).mpr (mem_keys_of_mem (dictGet_mem hw))
  obtain ⟨ty, bc, tg, off, ans, cand⟩ := d
  simp only at hd ht ⊢
  subst hd
  subst ht
  simp [handle_message, send_to, hw, hok, hne, hk]

theorem handle_message_ice_present (fuel : Nat) (st : ManagerState) (ws : Channel)
    (cid : ClientId) (d : InMsg) (t : ClientId) (ch : Channel)
    (hd : d.type = some "ice_candidate") (ht : d.target = some t) (hne : t ≠ "")
    (hw : dictGet st.active_connections t = some ch) (hok : ch.fails = false) :
    handle_message fuel st ws cid d =
      ({ st with
        sent := st.sent ++ [(ch.handle, Msg.ice_candidate d.candidate cid)] }, true) := by
  have hk : hasKey st.active_connections t = true :=
    (hasKey_iff _ _).mpr (mem_keys_of_mem (dictGet_mem hw))
  obtain ⟨ty, bc, tg, off, ans, cand⟩ := d
  simp only at hd ht ⊢
  subst hd
  subst ht
  simp [handle_message, send_to, hw, hok, hne, hk]

theorem handle_message_offer_dead (fuel : Nat) (st : ManagerState) (ws : Channel)
    (cid : ClientId) (d : InMsg) (t : ClientId) (ch : Channel)
    (hd : d.type = some "offer") (ht : d.target = some t) (hne : t ≠ "")
    (hw : dictGet st.active_connections t = some ch) (hf : ch.fails = true) :
    handle_message fuel st ws cid d = (st, false) := by
  have hk : hasKey st.active_connections t = true :=
    (hasKey_iff _ _).mpr (mem_keys_of_mem (dictGet_mem hw))
  obtain ⟨ty, bc, tg, off, ans, cand⟩ := d
  simp only at hd ht ⊢
  subst hd
  subst ht
  simp [handle_message, send_to, hw, hf, hne, hk]

theorem handle_message_answer_dead (fuel : Nat) (st : ManagerState) (ws : Channel)
    (cid : ClientId) (d : InMsg) (t : ClientId) (ch : Channel)
    (hd : d.type = some "answer") (ht : d.target = some t) (hne : t ≠ "")
    (hw : dictGet st.active_connections t = some ch) (hf : ch.fails = true) :
    handle_message fuel st ws cid d = (st, false) := by
  have hk : hasKey st.active_connections t = true :=
    (hasKey_iff _ _).mpr (mem_keys_of_mem (dictGet_mem hw))
  obtain ⟨ty, bc, tg, off, ans, cand⟩ := d
  simp only at hd ht ⊢
  subst hd
  subst ht
  simp [handle_message, send_to, hw, hf, hne, hk]

theorem handle_message_ice_dead (fuel : Nat) (st : ManagerState) (ws : Channel)
    (cid : ClientId) (d : InMsg) (t : ClientId) (ch : Channel)
    (hd : d.type = some "ice_candidate") (ht : d.target = some t) (hne : t ≠ "")
    (hw : dictGet st.active_connections t = some ch) (hf : ch.fails = true) :
    handle_message fuel st ws cid d = (st, false) := by
  have hk : hasKey st.active_connections t = true :=
    (hasKey_iff _ _).mpr (mem_keys_of_mem (dictGet_mem hw))
  obtain ⟨ty, bc, tg, off, ans, cand⟩ := d
  simp only at hd ht ⊢
  subst hd
  subst ht
  simp [handle_message, send_to, hw, hf, hne, hk]

theorem handle_message_routed_drop (fuel : Nat) (st : ManagerState) (ws : Channel)
    (cid : ClientId) (d : InMsg)
    (hd : d.type = some "offer" ∨ d.type = some "answer" ∨
      d.type = some "ice_candidate")
    (ht : ∀ t, d.target = some t → t = "" ∨ hasKey st.active_connections t = false) :
    handle_message fuel st ws cid d = (st, true) := by
  obtain ⟨ty, bc, tg, off, ans, cand⟩ := d
  simp only at hd ht ⊢
  cases tg with
  | none =>
    rcases hd with rfl | rfl | rfl <;> simp [handle_message]
  | some t =>
    have h1 := ht t rfl
    rcases hd with rfl | rfl | rfl <;>
      rcases h1 with h1 | h1 <;>
      simp [handle_message, h1]

/-! ### Operation sequences (registry refinement) -/

theorem active_connect (fuel : Nat) (st : ManagerState) (ws : Channel)
    (cid : ClientId) (hok : allOk st) :
    (connect fuel st ws cid).1.active_connections
      = dictSet st.active_connections cid ws := by
  rw [connect_eq fuel st ws cid hok]

theorem active_disconnect (f : Nat) (st : ManagerState) (cid : ClientId)
    (hok : allOk st) :
    (disconnect (f + 1) st cid).1.active_connections
      = dictDel st.active_connections cid := by
  rw [disconnect_eq f st cid (allOk_sub (dictDel_sublist _ _) hok)]

theorem allOk_connect (fuel : Nat) (st : ManagerState) (ws : Channel)
    (cid : ClientId) (hok : allOk st) (hws : ws.fails = false) :
    allOk (connect fuel st ws cid).1 := by
  intro p hp
  rw [active_connect fuel st ws cid hok] at hp
  exact allOk_dictSet hok hws p hp

theorem allOk_disconnect (f : Nat) (st : ManagerState) (cid : ClientId)
    (hok : allOk st) : allOk (disconnect (f + 1) st cid).1 := by
  intro p hp
  rw [active_disconnect f st cid hok] at hp
  exact allOk_sub (dictDel_sublist _ _) hok p hp

theorem nodup_connect (fuel : Nat) (st : ManagerState) (ws : Channel)
    (cid : ClientId) (hok : allOk st) (hnd : keysNodup st) :
    keysNodup (connect fuel st ws cid).1 := by
  unfold keysNodup
  rw [active_connect fuel st ws cid hok]
  exact nodup_keys_dictSet cid ws hnd

theorem nodup_disconnect (f : Nat) (st : ManagerState) (cid : ClientId)
    (hok : allOk st) (hnd : keysNodup st) :
    keysNodup (disconnect (f + 1) st cid).1 := by
  unfold keysNodup
  rw [active_disconnect f st cid hok]
  exact nodup_keys_dictDel cid hnd

theorem runOps_mem (ops : List Op) (f : Nat) :
    ∀ st : ManagerState, allOk st → keysNodup st →
      (∀ op ∈ ops, opOk op = true) →
      keysNodup (runOps (f + 1) st ops) ∧
        ∀ id, (id ∈ listIDs (runOps (f + 1) st ops) ↔
          ops.foldl (specStep id) (decide (id ∈ listIDs st)) = true) := by
  induction ops with
  | nil =>
    intro st hok hnd hops
    refine ⟨hnd, ?_⟩
    intro id
    simp [runOps]
  | cons op rest ih =>
    intro st hok hnd hops
    have hstep : runOps (f + 1) st (op :: rest)
        = runOps (f + 1) (applyOp (f + 1) st op) rest := rfl
    cases op with
    | connect cid ws =>
      have hws : ws.fails = false := by
        have h1 := hops _ (List.mem_cons_self _ _)
        simpa [opOk] using h1
      obtain ⟨hnd', hmem⟩ := ih (applyOp (f + 1) st (Op.connect cid ws))
        (allOk_connect (f + 1) st ws cid hok hws)
        (nodup_connect (f + 1) st ws cid hok hnd)
        (fun op h => hops op (List.mem_cons_of_mem _ h))
      rw [hstep]
      refine ⟨hnd', ?_⟩
      intro id
      rw [hmem id, List.foldl_cons]
      have hinit : (decide (id ∈ listIDs (applyOp (f + 1) st (Op.connect cid ws))))
          = specStep id (decide (id ∈ listIDs st)) (Op.connect cid ws) := by
        unfold listIDs
        rw [show (applyOp (f + 1) st (Op.connect cid ws)).active_connections
            = dictSet st.active_connections cid ws from
          active_connect (f + 1) st ws cid hok]
        unfold specStep
        by_cases hc : cid = id
        · subst hc
          simp [mem_keys_dictSet]
        · simp only [if_neg hc]
          rw [decide_eq_decide]
          rw [mem_keys_dictSet]
          constructor
          · rintro (rfl | h)
            · exact absurd rfl hc
            · exact h
          · exact Or.inr
      rw [hinit]
    | disconnect cid =>
      obtain ⟨hnd', hmem⟩ := ih (applyOp (f + 1) st (Op.disconnect cid))
        (allOk_disconnect f st cid hok)
        (nodup_disconnect f st cid hok hnd)
        (fun op h => hops op (List.mem_cons_of_mem _ h))
      rw [hstep]
      refine ⟨hnd', ?_⟩
      intro id
      rw [hmem id, List.foldl_cons]
      have hinit : (decide (id ∈ listIDs (applyOp (f + 1) st (Op.disconnect cid))))
          = specStep id (decide (id ∈ listIDs st)) (Op.disconnect cid) := by
        unfold listIDs
        rw [show (applyOp (f + 1) st (Op.disconnect cid)).active_connections
            = dictDel st.active_connections cid from
          active_disconnect f st cid hok]
        unfold specStep
        by_cases hc : cid = id
        · subst hc
          simp [mem_keys_dictDel hnd]
        · simp only [if_neg hc]
          rw [decide_eq_decide]
          rw [mem_keys_dictDel hnd]
          constructor
          · exact fun h => h.1
          · exact fun h => ⟨h, fun he => hc he.symm⟩
      rw [hinit]

/-! ### Uniqueness and counting helpers -/

theorem dictGet_dictSet_self (l : List (ClientId × Channel)) (k : ClientId)
    (v : Channel) : dictGet (dictSet l k v) k = some v := by
  induction l with
  | nil => simp [dictSet, dictGet]
  | cons p rest ih =>
    obtain ⟨k', v'⟩ := p
    by_cases h : k' = k
    · simp [dictSet, h, dictGet]
    · simp [dictSet, h, dictGet, ih]

theorem mem_dictSet_of_ne {l : List (ClientId × Channel)} {k : ClientId}
    {v : Channel} {p : ClientId × Channel} (hp : p ∈ l) (hne : p.1 ≠ k) :
    p ∈ dictSet l k v := by
  induction l with
  | nil => simp at hp
  | cons q rest ih =>
    obtain ⟨k', v'⟩ := q
    rcases List.mem_cons.mp hp with rfl | h1
    · have h : k' ≠ k := hne
      simp [dictSet, h]
    · by_cases h : k' = k
      · simp only [dictSet, if_pos h]
        exact List.mem_cons_of_mem _ h1
      · simp only [dictSet, if_neg h]
        exact List.mem_cons_of_mem _ (ih h1)

theorem entries_nodup {l : List (ClientId × Channel)} (hnd : (keys l).Nodup) :
    l.Nodup :=
  List.Nodup.of_map Prod.fst hnd

theorem entry_unique {l : List (ClientId × Channel)} (hnd : (keys l).Nodup)
    {p q : ClientId × Channel} (hp : p ∈ l) (hq : q ∈ l) (h : p.1 = q.1) :
    p = q := by
  have h1 : dictGet l p.1 = some p.2 := dictGet_of_mem hnd hp
  have h2 : dictGet l q.1 = some q.2 := dictGet_of_mem hnd hq
  rw [h, h2] at h1
  obtain ⟨p1, p2⟩ := p
  obtain ⟨q1, q2⟩ := q
  simp only at h h1
  rw [h, (Option.some.injEq _ _).mp h1]

theorem countSends_deliveredTo_one {l : List (ClientId × Channel)}
    (hnd : (keys l).Nodup) {p : ClientId × Channel} (hp : p ∈ l)
    (hok : p.2.fails = false) {ex : Option ClientId} (hex : some p.1 ≠ ex)
    (huniq : ∀ r ∈ l, r.2.fails = false → r.2.handle = p.2.handle → r = p)
    (m : Msg) : countSends (deliveredTo l m ex) p.2.handle m = 1 := by
  unfold deliveredTo
  rw [countSends_map_handle, List.filter_filter]
  rw [filter_eq_single _ p _ (entries_nodup hnd) hp (by simp [hex, hok]) ?_]
  · rfl
  · intro r hr hcond
    have hc2 : r.2.fails = false := by
      by_contra hc
      rw [Bool.not_eq_false] at hc
      simp [hc] at hcond
    have hc3 : r.2.handle = p.2.handle := by
      by_contra hc
      simp [hc] at hcond
    exact huniq r hr hc2 hc3

theorem countSends_deliveredTo_zero {l : List (ClientId × Channel)}
    {ex : Option ClientId} {h : Handle} (m : Msg)
    (hnone : ∀ r ∈ l, some r.1 ≠ ex → r.2.fails = false → r.2.handle ≠ h) :
    countSends (deliveredTo l m ex) h m = 0 := by
  unfold deliveredTo
  rw [countSends_map_handle, List.filter_filter]
  rw [List.length_eq_zero, List.filter_eq_nil_iff]
  intro r hr
  by_cases h1 : some r.1 = ex
  · simp [h1]
  · by_cases h2 : r.2.fails
    · simp [h2]
    · simp only [Bool.not_eq_true] at h2
      simp [h1, h2, hnone r hr h1 h2]

theorem failedOf_single {l : List (ClientId × Channel)} (hnd : (keys l).Nodup)
    {bad : ClientId} {bch : Channel} (hmem : (bad, bch) ∈ l)
    (hbad : bch.fails = true)
    (hothers : ∀ p ∈ l, p.1 ≠ bad → p.2.fails = false)
    {ex : Option ClientId} (hex : ex ≠ some bad) :
    failedOf l ex = [bad] := by
  unfold failedOf
  rw [filter_eq_single _ (bad, bch) _ (entries_nodup hnd) hmem
    (by simp [Ne.symm hex, hbad]) ?_]
  · rfl
  · intro r hr hcond
    have hf : r.2.fails = true := by
      by_contra hc
      rw [Bool.not_eq_true] at hc
      simp [hc] at hcond
    have h1 : r.1 = bad := by
      by_contra hc
      rw [hothers r hr hc] at hf
      simp at hf
    exact entry_unique hnd hr hmem h1

/-! ### Claims -/

/-- C2: for every finite sequence of connect and disconnect operations
starting from the empty registry (with channels that deliver), the set of
registered identifiers afterwards consists exactly of the identifiers that
were connected and not subsequently disconnected, and it has no duplicate
entries — so two connects under the same identifier leave exactly one
entry (replacement, not duplication). -/
theorem C2_registry_matches_spec (ops : List Op) (f : Nat)
    (hops : ∀ op ∈ ops, opOk op = true) :
    (∀ id, id ∈ listIDs (runOps (f + 1) emptyState ops) ↔
      specMember ops id = true) ∧
    (listIDs (runOps (f + 1) emptyState ops)).Nodup := by
  obtain ⟨hnd, hmem⟩ := runOps_mem ops f emptyState
    (by intro p hp; simp [emptyState] at hp)
    (by simp [keysNodup, emptyState, keys])
    hops
  refine ⟨?_, hnd⟩
  intro id
  rw [hmem id]
  have h0 : (decide (id ∈ listIDs emptyState)) = false := by
    simp [listIDs, emptyState, keys]
  rw [h0]
  exact Iff.rfl

/-- Evaluation of C2 on a sample workload: A connects twice (the second
replaces the first), B connects and then disconnects; afterwards A is
registered, and the identifier list is duplicate-free. -/
theorem C2_witness :
    ("A" ∈ listIDs (runOps 1 emptyState opsW) ↔ specMember opsW "A" = true) ∧
    (listIDs (runOps 1 emptyState opsW)).Nodup := by
  have h := C2_registry_matches_spec opsW 0 (by
    intro op hop
    simp only [opsW, List.mem_cons] at hop
    rcases hop with rfl | rfl | rfl | rfl | h1
    · rfl
    · rfl
    · rfl
    · rfl
    · simp at h1)
  exact ⟨h.1 "A", h.2⟩

/-- C6: a `get_users` message from a registered client X is answered by
exactly one `users_list` reply sent back on X's own channel, whose `users`
field is the full current identifier list (which contains X itself) and
whose `users_online` field is that list's length. -/
theorem C6_get_users_reply (fuel : Nat) (st : ManagerState) (ws : Channel)
    (cid : ClientId) (d : InMsg) (hd : d.type = some "get_users")
    (hmem : (cid, ws) ∈ st.active_connections) (hok : ws.fails = false) :
    handle_message fuel st ws cid d =
      ({ st with sent := st.sent
          ++ [(ws.handle, Msg.users_list (listIDs st) (listIDs st).length)] }, true)
    ∧ cid ∈ listIDs st := by
  refine ⟨?_, mem_keys_of_mem hmem⟩
  rw [handle_message_get_users fuel st ws cid d hd]
  unfold safe_send_json
  rw [hok]
  rfl

/-- Evaluation of C6: client A requests the user list in the two-client
registry and receives the single reply listing A and B. -/
theorem C6_witness :
    handle_message 1 stAB chA "A" dGetUsers =
      ({ stAB with sent := stAB.sent
          ++ [(chA.handle, Msg.users_list (listIDs stAB) (listIDs stAB).length)] },
        true)
    ∧ "A" ∈ listIDs stAB :=
  C6_get_users_reply 1 stAB chA "A" dGetUsers (by decide) (by decide) (by decide)

/-- C7: a routed message (`offer`, `answer` or `ice_candidate`) from A
naming target B is, when B is registered (under a truthy identifier) with
a working channel, delivered to B's channel as the same type with the blob
passed through unchanged and `sender` set to A; when the target is
missing, empty, or not registered, the handler returns with the state
completely unchanged — no reply, no error, and nothing retained that could
be delivered later. -/
theorem C7_routing :
    (∀ (fuel : Nat) (st : ManagerState) (ws : Channel) (cid : ClientId)
        (d : InMsg) (t : ClientId) (ch : Channel),
      d.type = some "offer" → d.target = some t → t ≠ "" →
      dictGet st.active_connections t = some ch → ch.fails = false →
      handle_message fuel st ws cid d
        = ({ st with sent := st.sent ++ [(ch.handle, Msg.offer d.offer cid)] }, true))
    ∧ (∀ (fuel : Nat) (st : ManagerState) (ws : Channel) (cid : ClientId)
        (d : InMsg) (t : ClientId) (ch : Channel),
      d.type = some "answer" → d.target = some t → t ≠ "" →
      dictGet st.active_connections t = some ch → ch.fails = false →
      handle_message fuel st ws cid d
        = ({ st with sent := st.sent ++ [(ch.handle, Msg.answer d.answer cid)] }, true))
    ∧ (∀ (fuel : Nat) (st : ManagerState) (ws : Channel) (cid : ClientId)
        (d : InMsg) (t : ClientId) (ch : Channel),
      d.type = some "ice_candidate" → d.target = some t → t ≠ "" →
      dictGet st.active_connections t = some ch → ch.fails = false →
      handle_message fuel st ws cid d
        = ({ st with
            sent := st.sent ++ [(ch.handle, Msg.ice_candidate d.candidate cid)] },
          true))
    ∧ (∀ (fuel : Nat) (st : ManagerState) (ws : Channel) (cid : ClientId)
        (d : InMsg),
      (d.type = some "offer" ∨ d.type = some "answer" ∨
        d.type = some "ice_candidate") →
      (∀ t, d.target = some t → t = "" ∨ hasKey st.active_connections t = false) →
      handle_message fuel st ws cid d = (st, true)) :=
  ⟨fun fuel st ws cid d t ch hd ht hne hw hok =>
      handle_message_offer_present fuel st ws cid d t ch hd ht hne hw hok,
    fun fuel st ws cid d t ch hd ht hne hw hok =>
      handle_message_answer_present fuel st ws cid d t ch hd ht hne hw hok,
    fun fuel st ws cid d t ch hd ht hne hw hok =>
      handle_message_ice_present fuel st ws cid d t ch hd ht hne hw hok,
    fun fuel st ws cid d hd ht =>
      handle_message_routed_drop fuel st ws cid d hd ht⟩

/-- Evaluation of C7: an offer from A to registered B is forwarded with
sender A; an offer from A to unregistered Z leaves the state untouched. -/
theorem C7_witness :
    handle_message 1 stAB chA "A" dOffer
      = ({ stAB with
          sent := stAB.sent ++ [(chB.handle, Msg.offer (some "sdp-offer") "A")] },
        true)
    ∧ handle_message 1 stAB chA "A" dOfferMiss = (stAB, true) := by
  refine ⟨C7_routing.1 1 stAB chA "A" dOffer "B" chB
    (by decide) (by decide) (by decide) (by decide) (by decide), ?_⟩
  refine C7_routing.2.2.2 1 stAB chA "A" dOfferMiss (Or.inl (by decide)) ?_
  intro t ht
  right
  rw [show t = "Z" from by
    have := ht
    simp [dOfferMiss] at this
    exact this.symm]
  decide

/-- C8: message handling never reads the `client_id` field of the inbound
body — two inbound messages that differ only in that field are handled
identically — and the `sender` stamped on every forwarded message is the
path-derived connection identity passed to the handler. -/
theorem C8_sender_identity :
    (∀ (fuel : Nat) (st : ManagerState) (ws : Channel) (cid : ClientId)
        (d₁ d₂ : InMsg),
      d₁.type = d₂.type → d₁.target = d₂.target → d₁.offer = d₂.offer →
      d₁.answer = d₂.answer → d₁.candidate = d₂.candidate →
      handle_message fuel st ws cid d₁ = handle_message fuel st ws cid d₂)
    ∧ (∀ (fuel : Nat) (st : ManagerState) (ws : Channel) (cid : ClientId)
        (d : InMsg) (t : ClientId) (ch : Channel),
      d.type = some "offer" → d.target = some t → t ≠ "" →
      dictGet st.active_connections t = some ch → ch.fails = false →
      (handle_message fuel st ws cid d).1.sent
          = st.sent ++ [(ch.handle, Msg.offer d.offer cid)]
        ∧ senderOf (Msg.offer d.offer cid) = some cid)
    ∧ (∀ (fuel : Nat) (st : ManagerState) (ws : Channel) (cid : ClientId)
        (d : InMsg) (t : ClientId) (ch : Channel),
      d.type = some "answer" → d.target = some t → t ≠ "" →
      dictGet st.active_connections t = some ch → ch.fails = false →
      (handle_message fuel st ws cid d).1.sent
          = st.sent ++ [(ch.handle, Msg.answer d.answer cid)]
        ∧ senderOf (Msg.answer d.answer cid) = some cid)
    ∧ (∀ (fuel : Nat) (st : ManagerState) (ws : Channel) (cid : ClientId)
        (d : InMsg) (t : ClientId) (ch : Channel),
      d.type = some "ice_candidate" → d.target = some t → t ≠ "" →
      dictGet st.active_connections t = some ch → ch.fails = false →
      (handle_message fuel st ws cid d).1.sent
          = st.sent ++ [(ch.handle, Msg.ice_candidate d.candidate cid)]
        ∧ senderOf (Msg.ice_candidate d.candidate cid) = some cid) := by
  refine ⟨?_, ?_, ?_, ?_⟩
  · intro fuel st ws cid d₁ d₂ h1 h2 h3 h4 h5
    obtain ⟨ty1, bc1, tg1, off1, ans1, cand1⟩ := d₁
    obtain ⟨ty2, bc2, tg2, off2, ans2, cand2⟩ := d₂
    simp only at h1 h2 h3 h4 h5
    subst h1
    subst h2
    subst h3
    subst h4
    subst h5
    rfl
  · intro fuel st ws cid d t ch hd ht hne hw hok
    rw [handle_message_offer_present fuel st ws cid d t ch hd ht hne hw hok]
    exact ⟨rfl, rfl⟩
  · intro fuel st ws cid d t ch hd ht hne hw hok
    rw [handle_message_answer_present fuel st ws cid d t ch hd ht hne hw hok]
    exact ⟨rfl, rfl⟩
  · intro fuel st ws cid d t ch hd ht hne hw hok
    rw [handle_message_ice_present fuel st ws cid d t ch hd ht hne hw hok]
    exact ⟨rfl, rfl⟩

/-- Evaluation of C8: an offer with a spoofed body `client_id` is handled
exactly like the honest one, and the forwarded message carries the
path-derived sender A. -/
theorem C8_witness :
    handle_message 1 stAB chA "A" dOffer = handle_message 1 stAB chA "A" dOfferSpoof
    ∧ senderOf (Msg.offer (some "sdp-offer") "A") = some "A" := by
  refine ⟨C8_sender_identity.1 1 stAB chA "A" dOffer dOfferSpoof
    (by decide) (by decide) (by decide) (by decide) (by decide), ?_⟩
  exact (C8_sender_identity.2.1 1 stAB chA "A" dOffer "B" chB
    (by decide) (by decide) (by decide) (by decide) (by decide)).2

/-- C9: processing a `get_users` message never changes the registry —
no client is added or removed — even when the reply send fails (the
failure is absorbed by the safe send and triggers no disconnect), and the
handler returns normally. -/
theorem C9_get_users_frame (fuel : Nat) (st : ManagerState) (ws : Channel)
    (cid : ClientId) (d : InMsg) (hd : d.type = some "get_users") :
    (handle_message fuel st ws cid d).1.active_connections = st.active_connections
    ∧ (handle_message fuel st ws cid d).2 = true := by
  rw [handle_message_get_users fuel st ws cid d hd]
  unfold safe_send_json
  by_cases hws : ws.fails
  · rw [hws]
    exact ⟨rfl, rfl⟩
  · rw [Bool.not_eq_true] at hws
    rw [hws]
    exact ⟨rfl, rfl⟩

/-- Evaluation of C9: a `get_users` request from X over X's dead channel
leaves the single-client registry untouched. -/
theorem C9_witness :
    (handle_message 1 stX chBad "X" dGetUsers).1.active_connections
      = stX.active_connections
    ∧ (handle_message 1 stX chBad "X" dGetUsers).2 = true :=
  C9_get_users_frame 1 stX chBad "X" dGetUsers (by decide)

/-- C3: when a client connects (channels healthy, channel handles
distinct), the connect first appends exactly one `connected`
acknowledgement on the new client's own channel and then the `user_joined`
deliveries, carrying `users_online` equal to the new total count, with
exactly one `user_joined` delivered to each other registered client and
none to the new client itself. -/
theorem C3_connect_notifies (fuel : Nat) (st : ManagerState) (ws : Channel)
    (cid : ClientId) (hok : allOk st) (hws : ws.fails = false)
    (hnd : keysNodup st)
    (hinj : ∀ p ∈ st.active_connections, ∀ q ∈ st.active_connections,
      p.2.handle = q.2.handle → p.1 = q.1)
    (hfresh : ∀ p ∈ st.active_connections, p.1 ≠ cid → p.2.handle ≠ ws.handle) :
    (connect fuel st ws cid).1.sent
        = st.sent ++ (ws.handle, Msg.connected cid welcomeText)
          :: deliveredTo (dictSet st.active_connections cid ws)
            (Msg.user_joined cid (dictSet st.active_connections cid ws).length)
            (some cid)
    ∧ (connect fuel st ws cid).2 = true
    ∧ countSends ((ws.handle, Msg.connected cid welcomeText)
          :: deliveredTo (dictSet st.active_connections cid ws)
            (Msg.user_joined cid (dictSet st.active_connections cid ws).length)
            (some cid)) ws.handle (Msg.connected cid welcomeText) = 1
    ∧ (∀ p ∈ st.active_connections, p.1 ≠ cid →
        countSends (deliveredTo (dictSet st.active_connections cid ws)
            (Msg.user_joined cid (dictSet st.active_connections cid ws).length)
            (some cid)) p.2.handle
          (Msg.user_joined cid (dictSet st.active_connections cid ws).length) = 1)
    ∧ countSends (deliveredTo (dictSet st.active_connections cid ws)
          (Msg.user_joined cid (dictSet st.active_connections cid ws).length)
          (some cid)) ws.handle
        (Msg.user_joined cid (dictSet st.active_connections cid ws).length) = 0 := by
  have hzero : countSends (deliveredTo (dictSet st.active_connections cid ws)
      (Msg.user_joined cid (dictSet st.active_connections cid ws).length)
      (some cid)) ws.handle
      (Msg.connected cid welcomeText) = 0 := by
    unfold deliveredTo
    exact countSends_map_ne _ _ _ _ (by simp)
  refine ⟨?_, ?_, ?_, ?_, ?_⟩
  · rw [connect_eq fuel st ws cid hok]
    simp [hws]
  · rw [connect_eq fuel st ws cid hok]
  · rw [show ((ws.handle, Msg.connected cid welcomeText)
        :: deliveredTo (dictSet st.active_connections cid ws)
          (Msg.user_joined cid (dictSet st.active_connections cid ws).length)
          (some cid))
      = [(ws.handle, Msg.connected cid welcomeText)]
        ++ deliveredTo (dictSet st.active_connections cid ws)
          (Msg.user_joined cid (dictSet st.active_connections cid ws).length)
          (some cid) from rfl]
    rw [countSends_append, hzero]
    simp [countSends]
  · intro p hp hne
    refine countSends_deliveredTo_one (nodup_keys_dictSet cid ws hnd)
      (mem_dictSet_of_ne hp hne) (hok p hp) (by simp [hne]) ?_ _
    intro r hr hrok hrh
    rcases mem_dictSet hr with rfl | hrmem
    · exact absurd hrh.symm (hfresh p hp hne)
    · exact entry_unique hnd hrmem hp (hinj r hrmem p hp hrh)
  · refine countSends_deliveredTo_zero _ ?_
    intro r hr hrne hrok
    rcases mem_dictSet hr with rfl | hrmem
    · simp at hrne
    · exact hfresh r hrmem (by simpa using hrne)

/-- Evaluation of C3: A joins while B is connected; B receives exactly one
user_joined with users_online equal to 2, A receives the acknowledgement
and no user_joined about itself. -/
theorem C3_witness :
    (connect 1 stB chA "A").1.sent
        = stB.sent ++ (chA.handle, Msg.connected "A" welcomeText)
          :: deliveredTo (dictSet stB.active_connections "A" chA)
            (Msg.user_joined "A" (dictSet stB.active_connections "A" chA).length)
            (some "A")
    ∧ countSends (deliveredTo (dictSet stB.active_connections "A" chA)
          (Msg.user_joined "A" (dictSet stB.active_connections "A" chA).length)
          (some "A")) chB.handle
        (Msg.user_joined "A" (dictSet stB.active_connections "A" chA).length) = 1
    ∧ countSends (deliveredTo (dictSet stB.active_connections "A" chA)
          (Msg.user_joined "A" (dictSet stB.active_connections "A" chA).length)
          (some "A")) chA.handle
        (Msg.user_joined "A" (dictSet stB.active_connections "A" chA).length) = 0
    ∧ (dictSet stB.active_connections "A" chA).length = 2 := by
  have h := C3_connect_notifies 1 stB chA "A" (by unfold allOk; decide) (by decide)
    (by unfold keysNodup; decide) (by decide) (by decide)
  exact ⟨h.1, h.2.2.2.1 ("B", chB) (by decide) (by decide), h.2.2.2.2, by decide⟩

/-- C4: disconnecting an identifier (registered or not) removes its record
if present, records the close of its channel, and in every case broadcasts
exactly one `user_left` carrying `users_online` equal to the post-removal
count to each remaining client. -/
theorem C4_disconnect_broadcast (f : Nat) (st : ManagerState) (cid : ClientId)
    (hok : allOk st) (hnd : keysNodup st)
    (hinj : ∀ p ∈ st.active_connections, ∀ q ∈ st.active_connections,
      p.2.handle = q.2.handle → p.1 = q.1) :
    disconnect (f + 1) st cid =
      ({ active_connections := dictDel st.active_connections cid,
         sent := st.sent ++ deliveredTo (dictDel st.active_connections cid)
           (Msg.user_left cid (dictDel st.active_connections cid).length) none,
         closed := st.closed ++ (dictGet st.active_connections cid).elim []
           (fun ws => [ws.handle]) }, true)
    ∧ ∀ p ∈ dictDel st.active_connections cid,
        countSends (deliveredTo (dictDel st.active_connections cid)
            (Msg.user_left cid (dictDel st.active_connections cid).length) none)
          p.2.handle
          (Msg.user_left cid (dictDel st.active_connections cid).length) = 1 := by
  refine ⟨disconnect_eq f st cid (allOk_sub (dictDel_sublist _ _) hok), ?_⟩
  intro p hp
  have hpmem : p ∈ st.active_connections := (dictDel_sublist _ _).subset hp
  refine countSends_deliveredTo_one (nodup_keys_dictDel cid hnd) hp
    (hok p hpmem) (by simp) ?_ _
  intro r hr hrok hrh
  have hrmem : r ∈ st.active_connections := (dictDel_sublist _ _).subset hr
  exact entry_unique (nodup_keys_dictDel cid hnd) hr hp (hinj r hrmem p hpmem hrh)

/-- Evaluation of C4: disconnecting A with B still connected gives B
exactly one user_left with users_online equal to 1. -/
theorem C4_witness :
    disconnect 1 stAB "A" =
      ({ active_connections := dictDel stAB.active_connections "A",
         sent := stAB.sent ++ deliveredTo (dictDel stAB.active_connections "A")
           (Msg.user_left "A" (dictDel stAB.active_connections "A").length) none,
         closed := stAB.closed ++ (dictGet stAB.active_connections "A").elim []
           (fun ws => [ws.handle]) }, true)
    ∧ countSends (deliveredTo (dictDel stAB.active_connections "A")
          (Msg.user_left "A" (dictDel stAB.active_connections "A").length) none)
        chB.handle
        (Msg.user_left "A" (dictDel stAB.active_connections "A").length) = 1
    ∧ (dictDel stAB.active_connections "A").length = 1 := by
  have h := C4_disconnect_broadcast 0 stAB "A" (by unfold allOk; decide)
    (by unfold keysNodup; decide) (by decide)
  exact ⟨h.1, h.2 ("B", chB) (by decide), by decide⟩

/-- C10: if the `connected` acknowledgement to a newly admitted client
fails (its channel is dead) while the existing clients are healthy,
connect still completes normally: the new record stays installed, no
acknowledgement event is recorded, the new client is not disconnected, and
each other client still receives exactly one `user_joined`. -/
theorem C10_welcome_failure (fuel : Nat) (st : ManagerState) (ws : Channel)
    (cid : ClientId) (hok : allOk st) (hws : ws.fails = true)
    (hnd : keysNodup st)
    (hinj : ∀ p ∈ st.active_connections, ∀ q ∈ st.active_connections,
      p.2.handle = q.2.handle → p.1 = q.1) :
    (connect fuel st ws cid).1 =
      { active_connections := dictSet st.active_connections cid ws,
        sent := st.sent ++ deliveredTo (dictSet st.active_connections cid ws)
          (Msg.user_joined cid (dictSet st.active_connections cid ws).length)
          (some cid),
        closed := st.closed }
    ∧ (connect fuel st ws cid).2 = true
    ∧ dictGet (connect fuel st ws cid).1.active_connections cid = some ws
    ∧ cid ∈ listIDs (connect fuel st ws cid).1
    ∧ countSends (connect fuel st ws cid).1.sent ws.handle
        (Msg.connected cid welcomeText)
      = countSends st.sent ws.handle (Msg.connected cid welcomeText)
    ∧ (∀ p ∈ st.active_connections, p.1 ≠ cid →
        countSends (deliveredTo (dictSet st.active_connections cid ws)
            (Msg.user_joined cid (dictSet st.active_connections cid ws).length)
            (some cid)) p.2.handle
          (Msg.user_joined cid (dictSet st.active_connections cid ws).length) = 1) := by
  have heq : (connect fuel st ws cid).1 =
      { active_connections := dictSet st.active_connections cid ws,
        sent := st.sent ++ deliveredTo (dictSet st.active_connections cid ws)
          (Msg.user_joined cid (dictSet st.active_connections cid ws).length)
          (some cid),
        closed := st.closed } := by
    rw [connect_eq fuel st ws cid hok]
    simp [hws]
  refine ⟨heq, ?_, ?_, ?_, ?_, ?_⟩
  · rw [connect_eq fuel st ws cid hok]
  · rw [heq]
    exact dictGet_dictSet_self _ _ _
  · unfold listIDs
    rw [heq]
    exact (mem_keys_dictSet _ _ _ _).mpr (Or.inl rfl)
  · rw [heq]
    simp only
    rw [countSends_append]
    have h0 : countSends (deliveredTo (dictSet st.active_connections cid ws)
        (Msg.user_joined cid (dictSet st.active_connections cid ws).length)
        (some cid)) ws.handle (Msg.connected cid welcomeText) = 0 := by
      unfold deliveredTo
      exact countSends_map_ne _ _ _ _ (by simp)
    rw [h0]
    exact Nat.add_zero _
  · intro p hp hne
    refine countSends_deliveredTo_one (nodup_keys_dictSet cid ws hnd)
      (mem_dictSet_of_ne hp hne) (hok p hp) (by simp [hne]) ?_ _
    intro r hr hrok hrh
    rcases mem_dictSet hr with rfl | hrmem
    · exact absurd hws (by rw [hrok]; simp)
    · exact entry_unique hnd hrmem hp (hinj r hrmem p hp hrh)

/-- Evaluation of C10: A joins B with a dead channel; A's record is
installed, no acknowledgement is recorded, and B still receives its single
user_joined. -/
theorem C10_witness :
    (connect 1 stB chBad "A").1 =
      { active_connections := dictSet stB.active_connections "A" chBad,
        sent := stB.sent ++ deliveredTo (dictSet stB.active_connections "A" chBad)
          (Msg.user_joined "A" (dictSet stB.active_connections "A" chBad).length)
          (some "A"),
        closed := stB.closed }
    ∧ dictGet (connect 1 stB chBad "A").1.active_connections "A" = some chBad
    ∧ "A" ∈ listIDs (connect 1 stB chBad "A").1
    ∧ countSends (deliveredTo (dictSet stB.active_connections "A" chBad)
          (Msg.user_joined "A" (dictSet stB.active_connections "A" chBad).length)
          (some "A")) chB.handle
        (Msg.user_joined "A" (dictSet stB.active_connections "A" chBad).length) = 1 := by
  have h := C10_welcome_failure 1 stB chBad "A" (by unfold allOk; decide) (by decide)
    (by unfold keysNodup; decide) (by decide)
  exact ⟨h.1, h.2.2.1, h.2.2.2.1, h.2.2.2.2.2 ("B", chB) (by decide) (by decide)⟩

/-- C5: broadcasting to a registry in which exactly one client's channel
fails still delivers the message to every other (non-excluded) client, and
removes exactly the failing client — its disconnect (close, removal, and
the resulting `user_left` deliveries) happens only after the broadcast
pass over all recipients has completed, as witnessed by the trace order. -/
theorem C5_broadcast_one_failure (f : Nat) (st : ManagerState) (m : Msg)
    (ex : Option ClientId) (bad : ClientId) (bch : Channel)
    (hnd : keysNodup st) (hmem : (bad, bch) ∈ st.active_connections)
    (hbad : bch.fails = true)
    (hothers : ∀ p ∈ st.active_connections, p.1 ≠ bad → p.2.fails = false)
    (hex : ex ≠ some bad) :
    broadcast (f + 1) st m ex =
      ({ active_connections := dictDel st.active_connections bad,
         sent := (st.sent ++ deliveredTo st.active_connections m ex)
           ++ deliveredTo (dictDel st.active_connections bad)
             (Msg.user_left bad (dictDel st.active_connections bad).length) none,
         closed := st.closed ++ [bch.handle] }, true)
    ∧ (∀ p ∈ st.active_connections, p.1 ≠ bad → some p.1 ≠ ex →
        (∀ r ∈ st.active_connections, r.2.fails = false →
          r.2.handle = p.2.handle → r = p) →
        countSends (deliveredTo st.active_connections m ex) p.2.handle m = 1) := by
  have hnd' : (keys st.active_connections).Nodup := hnd
  constructor
  · have hok2 : ∀ p ∈ dictDel st.active_connections bad, p.2.fails = false := by
      intro p hp
      have h1 := (mem_dictDel hnd').mp hp
      exact hothers p h1.1 h1.2
    unfold broadcast
    rw [broadcastPass_eq]
    simp only
    rw [failedOf_single hnd' hmem hbad hothers hex]
    rw [show cascade (f + 1)
        ({ st with sent := st.sent ++ deliveredTo st.active_connections m ex }) [bad]
      = disconnect (f + 1)
        ({ st with sent := st.sent ++ deliveredTo st.active_connections m ex }) bad
      from rfl]
    rw [disconnect_eq f
      { st with sent := st.sent ++ deliveredTo st.active_connections m ex } bad hok2]
    rw [show dictGet ({ st with
        sent := st.sent ++ deliveredTo st.active_connections m ex }
          : ManagerState).active_connections bad = some bch from
      dictGet_of_mem hnd' hmem]
    rfl
  · intro p hp hne hexp huniq
    exact countSends_deliveredTo_one hnd' hp (hothers p hp hne) hexp
      (fun r hr hrok hrh => huniq r hr hrok hrh) m

/-- Evaluation of C5: broadcasting over A, B, C where only B's channel is
dead removes exactly B after the full pass, and A still receives the
message exactly once. -/
theorem C5_witness :
    broadcast 1 stP mW none =
      ({ active_connections := dictDel stP.active_connections "B",
         sent := (stP.sent ++ deliveredTo stP.active_connections mW none)
           ++ deliveredTo (dictDel stP.active_connections "B")
             (Msg.user_left "B" (dictDel stP.active_connections "B").length) none,
         closed := stP.closed ++ [chBad.handle] }, true)
    ∧ countSends (deliveredTo stP.active_connections mW none) chA.handle mW = 1 := by
  have h := C5_broadcast_one_failure 0 stP mW none "B" chBad
    (by unfold keysNodup; decide) (by decide) (by decide) (by decide) (by decide)
  exact ⟨h.1, h.2 ("A", chA) (by decide) (by decide) (by decide) (by decide)⟩

/-- C1 as frozen is falsified on two counts.  Direct reply: client X's
channel send fails while answering X's `get_users` request, yet X is not
removed from the registry and no `user_left` is broadcast (the trace stays
empty) — the failure is absorbed by the safe send.  Targeted send: with B
registered under a raising channel, `send_to` does not disconnect B — it
awaits `disconnect` while still holding the non-reentrant lock and blocks
forever with no state change (`none`), so B is never removed and no
`user_left` ever follows. -/
theorem C1_counterexample :
    chBad.fails = true
    ∧ ("X", chBad) ∈ stX.active_connections
    ∧ (handle_message 5 stX chBad "X" dGetUsers).1.active_connections
        = stX.active_connections
    ∧ (handle_message 5 stX chBad "X" dGetUsers).1.sent = []
    ∧ dictGet stP.active_connections "B" = some chBad
    ∧ send_to stP "B" mW = none := by decide

/-- C1 (amended): a registered client whose channel send fails during a
broadcast delivery is removed from the registry, every surviving healthy
client subsequently receives a `user_left` about it, and the failed send
is not retried (no delivery of the message to the dead client's handle is
ever recorded).  A delivery failure inside `send_to` does not disconnect
the target: the call re-acquires the held non-reentrant lock and never
completes, leaving the registry unchanged with no `user_left` sent — a
routed message to such a target leaves the handler blocked on the
unchanged state.  Direct replies (`get_users` answers and the `connected`
acknowledgement) absorb the failure without any disconnect. -/
theorem C1_amended :
    (∀ (fuel : Nat) (st : ManagerState) (m : Msg) (ex : Option ClientId)
        (p : ClientId × Channel),
      keysNodup st → p ∈ st.active_connections → p.2.fails = true →
      ex ≠ some p.1 → (broadcast fuel st m ex).2 = true →
      p.1 ∉ listIDs (broadcast fuel st m ex).1
      ∧ (∀ q ∈ (broadcast fuel st m ex).1.active_connections, q.2.fails = false →
          ∃ k, (q.2.handle, Msg.user_left p.1 k) ∈ (broadcast fuel st m ex).1.sent)
      ∧ ((∀ c k, m ≠ Msg.user_left c k) →
          (∀ r ∈ st.active_connections, r.2.handle = p.2.handle → r = p) →
          countSends (broadcast fuel st m ex).1.sent p.2.handle m
            = countSends st.sent p.2.handle m))
    ∧ (∀ (st : ManagerState) (t : ClientId) (m : Msg) (ch : Channel),
      dictGet st.active_connections t = some ch → ch.fails = true →
      send_to st t m = none)
    ∧ (∀ (fuel : Nat) (st : ManagerState) (ws : Channel) (cid : ClientId)
        (d : InMsg) (t : ClientId) (ch : Channel),
      d.target = some t → t ≠ "" →
      dictGet st.active_connections t = some ch → ch.fails = true →
      (d.type = some "offer" ∨ d.type = some "answer" ∨
        d.type = some "ice_candidate") →
      handle_message fuel st ws cid d = (st, false))
    ∧ (∀ (fuel : Nat) (st : ManagerState) (ws : Channel) (cid : ClientId)
        (d : InMsg),
      d.type = some "get_users" →
      (handle_message fuel st ws cid d).1.active_connections
        = st.active_connections) := by
  refine ⟨?_, ?_, ?_, ?_⟩
  · intro fuel st m ex p hnd hp hfails hex hdone
    have hb : broadcast fuel st m ex = cascade fuel
        ({ st with sent := st.sent ++ deliveredTo st.active_connections m ex })
        (failedOf st.active_connections ex) := by
      unfold broadcast
      rw [broadcastPass_eq]
    have hnd' : (keys ({ st with
        sent := st.sent ++ deliveredTo st.active_connections m ex }
          : ManagerState).active_connections).Nodup := hnd
    have hpin : p.1 ∈ failedOf st.active_connections ex :=
      mem_failedOf hp hfails (Ne.symm hex)
    rw [hb] at hdone ⊢
    refine ⟨?_, ?_, ?_⟩
    · exact cascade_done_not_mem fuel _ _ hnd' hdone p.1 hpin
    · exact fun q hq hqok => cascade_user_left fuel _ _ hdone p.1 hpin q hq hqok
    · intro hm huniq
      obtain ⟨δ, hδ, hul⟩ := cascade_sent_delta fuel
        ({ st with sent := st.sent ++ deliveredTo st.active_connections m ex })
        (failedOf st.active_connections ex)
      rw [hδ]
      rw [show ({ st with
          sent := st.sent ++ deliveredTo st.active_connections m ex }
            : ManagerState).sent
        = st.sent ++ deliveredTo st.active_connections m ex from rfl]
      rw [List.append_assoc, countSends_append]
      have hz1 : countSends (deliveredTo st.active_connections m ex) p.2.handle m
          = 0 := by
        refine countSends_deliveredTo_zero _ ?_
        intro r hr hrex hrok hcon
        have hr2 := huniq r hr hcon
        rw [hr2, hfails] at hrok
        exact Bool.noConfusion hrok
      have hz2 : countSends δ p.2.handle m = 0 :=
        countSends_all_user_left _ hm hul
      rw [countSends_append, hz1, hz2]
      omega
  · intro st t m ch hw hf
    exact send_to_fail st t m ch hw hf
  · intro fuel st ws cid d t ch ht hne hw hf hd
    rcases hd with hd | hd | hd
    · exact handle_message_offer_dead fuel st ws cid d t ch hd ht hne hw hf
    · exact handle_message_answer_dead fuel st ws cid d t ch hd ht hne hw hf
    · exact handle_message_ice_dead fuel st ws cid d t ch hd ht hne hw hf
  · intro fuel st ws cid d hd
    rw [handle_message_get_users fuel st ws cid d hd]
    unfold safe_send_json
    by_cases hws : ws.fails
    · rw [hws]
      rfl
    · rw [Bool.not_eq_true] at hws
      rw [hws]
      rfl

/-- Evaluation of the amended C1: in the A/B/C registry with B's channel
dead, a broadcast removes B and re-delivers nothing to B's handle; a
targeted send to B never completes (deadlock, no removal); an offer routed
to B leaves the handler blocked on the unchanged state; and a failing
`get_users` reply leaves the registry untouched. -/
theorem C1_amended_witness :
    "B" ∉ listIDs (broadcast 2 stP mW none).1
    ∧ countSends (broadcast 2 stP mW none).1.sent chBad.handle mW
        = countSends stP.sent chBad.handle mW
    ∧ send_to stP "B" mW = none
    ∧ handle_message 2 stP chA "A" dOffer = (stP, false)
    ∧ (handle_message 2 stX chBad "X" dGetUsers).1.active_connections
        = stX.active_connections := by
  have ha := C1_amended.1 2 stP mW none ("B", chBad) (by unfold keysNodup; decide)
    (by decide) (by decide) (by decide) (by decide)
  exact ⟨ha.1, ha.2.2 (by intro c k; simp [mW]) (by decide),
    C1_amended.2.1 stP "B" mW chBad (by decide) (by decide),
    C1_amended.2.2.1 2 stP chA "A" dOffer "B" chBad
      (by decide) (by decide) (by decide) (by decide) (Or.inl (by decide)),
    C1_amended.2.2.2 2 stX chBad "X" dGetUsers (by decide)⟩

end VideoServer

